import Mathlib

/-!
Verification of the rustcertation audio pipeline core.

The Rust sources are embedded shallowly:
  - `f32` values are modelled as exact rationals (ℚ); the platform power
    function `f32::powf` is not rational-valued, so it is passed in as an
    explicit parameter `powf : ℚ → ℚ → ℚ` wherever the source calls it.
  - `u32` is modelled as ℕ together with explicit reduction modulo 2^32 at
    the points where the source mixes signed and unsigned arithmetic,
    matching release-mode wrapping semantics.
  - Fallible operations (slice indexing, the external FFT call followed by
    `.expect`) return `Option`, with `none` standing for a panic.
-/

/-- Embeds `struct SoundTransformer` from src/sound_transformer.rs.
`f32` fields are ℚ, `u32` is ℕ. -/
structure SoundTransformer where
  norm : Bool
  full_norm : Bool
  norm_scale : ℚ
  smooth : Bool
  flash_flood : Bool
  moving_avg_range : ℕ
  moving_avg_k : ℚ
deriving DecidableEq, Repr

/-- Embeds `fn get_moving_avg_coefficient(range: u32) -> f32`:
`2f32 / (1f32 + range as f32)`. -/
def get_moving_avg_coefficient (range : ℕ) : ℚ :=
  2 / (1 + (range : ℚ))

/-- Embeds `impl Default for SoundTransformer`. -/
def SoundTransformer.default : SoundTransformer :=
  let moving_avg_range : ℕ := 10
  let moving_avg_k := get_moving_avg_coefficient moving_avg_range
  { norm := true
    full_norm := false
    norm_scale := 1
    smooth := true
    flash_flood := true
    moving_avg_range := moving_avg_range
    moving_avg_k := moving_avg_k }

/-- Embeds `SoundTransformer::normalize(&self, val: f32, index: f32) -> f32`.
The source calls `(index + 1f32).powf(power)`; `powf` is the platform power
function, supplied as a parameter. -/
def SoundTransformer.normalize (powf : ℚ → ℚ → ℚ) (st : SoundTransformer)
    (val index : ℚ) : ℚ :=
  let power : ℚ := 0.7
  let scale : ℚ := 0.000000000015
  let full_scale : ℚ := 0.02
  if st.norm then
    if st.full_norm then
      val * (index + 1) * full_scale
    else
      val * powf (index + 1) power * scale * st.norm_scale
  else
    val

/-- Embeds `SoundTransformer::smoothen(&self, old: f32, new: f32) -> f32`. -/
def SoundTransformer.smoothen (st : SoundTransformer) (old new : ℚ) : ℚ :=
  if st.smooth then
    if st.flash_flood ∧ new > old then
      new
    else
      new * st.moving_avg_k + old * (1 - st.moving_avg_k)
  else
    new

/-- Embeds `SoundTransformer::apply(&self, old: f32, new: f32, index: f32) -> f32`:
`self.smoothen(old, self.normalize((base_scale * new).abs().powf(power), index))`. -/
def SoundTransformer.apply (powf : ℚ → ℚ → ℚ) (st : SoundTransformer)
    (old new index : ℚ) : ℚ :=
  let base_scale : ℚ := 0.25
  let power : ℚ := 1.5
  st.smoothen old (st.normalize powf (powf |base_scale * new| power) index)

/-- Embeds `SoundTransformer::toggle_norm`. -/
def SoundTransformer.toggle_norm (st : SoundTransformer) : SoundTransformer :=
  { st with norm := !st.norm }

/-- Embeds `SoundTransformer::toggle_smooth`. -/
def SoundTransformer.toggle_smooth (st : SoundTransformer) : SoundTransformer :=
  { st with smooth := !st.smooth }

/-- Embeds `SoundTransformer::toggle_flash_flood`. -/
def SoundTransformer.toggle_flash_flood (st : SoundTransformer) : SoundTransformer :=
  { st with flash_flood := !st.flash_flood }

/-- Embeds `SoundTransformer::shift_norm_scale(&mut self, factor: f32)`:
`self.norm_scale *= factor`. -/
def SoundTransformer.shift_norm_scale (st : SoundTransformer) (factor : ℚ) :
    SoundTransformer :=
  { st with norm_scale := st.norm_scale * factor }

/-- Embeds `SoundTransformer::set_moving_avg_range(&mut self, val: u32)`. -/
def SoundTransformer.set_moving_avg_range (st : SoundTransformer) (val : ℕ) :
    SoundTransformer :=
  { st with
    moving_avg_range := val
    moving_avg_k := get_moving_avg_coefficient val }

/-- Models the Rust cast `val as u32` on a signed 32-bit value: the
two's-complement bit pattern reinterpreted as an unsigned integer, i.e.
`val` reduced modulo 2^32 into `[0, 2^32)`. -/
def u32_of_i32 (val : ℤ) : ℕ :=
  (val % 2 ^ 32).toNat

/-- Embeds `SoundTransformer::shift_moving_avg_range(&mut self, val: i32, debug: bool)`
(the `debug` println is a pure side effect and is omitted).  The guard
`val.abs() as u32 > self.moving_avg_range` is `val.natAbs > range`: for
every i32 other than the minimum the cast of `abs` is the absolute value,
and for the minimum the wrapped `abs` reinterpreted as u32 is 2^31, which
is again its absolute value.  The unguarded `self.moving_avg_range + val as u32`
wraps modulo 2^32 (release-mode u32 addition). -/
def SoundTransformer.shift_moving_avg_range (st : SoundTransformer) (val : ℤ) :
    SoundTransformer :=
  st.set_moving_avg_range
    (if val < 0 ∧ st.moving_avg_range < val.natAbs then
      0
    else
      (st.moving_avg_range + u32_of_i32 val) % 2 ^ 32)

/-- C1: `apply(old, new, f)` first computes `scaled = (0.25 * new).abs() ^ 1.5`;
normalization multiplies by `(f + 1) * 0.02` when `norm` and `full_norm` are
enabled, by `(f + 1)^0.7 * 1.5e-11 * norm_scale` when `norm` is enabled and
`full_norm` is not, and is the identity when `norm` is disabled; the result of
the normalization stage is exactly what the smoothing stage receives. -/
theorem apply_pipeline_order (powf : ℚ → ℚ → ℚ) (st : SoundTransformer)
    (old new f v : ℚ) :
    st.apply powf old new f
      = st.smoothen old (st.normalize powf (powf |0.25 * new| 1.5) f)
    ∧ (st.norm = true → st.full_norm = true →
        st.normalize powf v f = v * (f + 1) * 0.02)
    ∧ (st.norm = true → st.full_norm = false →
        st.normalize powf v f
          = v * powf (f + 1) 0.7 * 0.000000000015 * st.norm_scale)
    ∧ (st.norm = false → st.normalize powf v f = v) := by
  refine ⟨rfl, ?_, ?_, ?_⟩
  · intro hn hf
    simp [SoundTransformer.normalize, hn, hf]
  · intro hn hf
    simp [SoundTransformer.normalize, hn, hf]
  · intro hn
    simp [SoundTransformer.normalize, hn]

/-- Witness for `apply_pipeline_order`, covering each normalization branch at
concrete configurations and inputs. -/
theorem apply_pipeline_order_witness :
    (SoundTransformer.normalize (fun x y => x + y)
        { SoundTransformer.default with full_norm := true } 3 4 = 3 * (4 + 1) * 0.02)
    ∧ (SoundTransformer.normalize (fun x y => x + y) SoundTransformer.default 3 4
        = 3 * ((4 + 1) + 0.7) * 0.000000000015 * 1)
    ∧ (SoundTransformer.normalize (fun x y => x + y)
        { SoundTransformer.default with norm := false } 3 4 = 3) := by
  refine ⟨?_, ?_, ?_⟩
  · exact (apply_pipeline_order (fun x y => x + y)
      { SoundTransformer.default with full_norm := true } 0 0 4 3).2.1 rfl rfl
  · exact (apply_pipeline_order (fun x y => x + y)
      SoundTransformer.default 0 0 4 3).2.2.1 rfl rfl
  · exact (apply_pipeline_order (fun x y => x + y)
      { SoundTransformer.default with norm := false } 0 0 4 3).2.2.2 rfl

/-- C2: for the smoothing stage on a normalized value `v`: with `smooth` and
`flash_flood` enabled and `v > old` the output is `v` exactly; with `smooth`
enabled otherwise the output is `v * k + old * (1 - k)` with `k = moving_avg_k`;
with `smooth` disabled the stage is the identity and hence independent of
`old`. -/
theorem smoothen_cases (st : SoundTransformer) (old v : ℚ) :
    (st.smooth = true → st.flash_flood = true → v > old →
      st.smoothen old v = v)
    ∧ (st.smooth = true → ¬(st.flash_flood = true ∧ v > old) →
      st.smoothen old v = v * st.moving_avg_k + old * (1 - st.moving_avg_k))
    ∧ (st.smooth = false → st.smoothen old v = v)
    ∧ (st.smooth = false → ∀ old2 : ℚ, st.smoothen old v = st.smoothen old2 v) := by
  refine ⟨?_, ?_, ?_, ?_⟩
  · intro hs hf hgt
    simp [SoundTransformer.smoothen, hs, hf, hgt]
  · intro hs hnot
    simp only [SoundTransformer.smoothen, hs, if_true]
    rw [if_neg]
    intro hc
    exact hnot ⟨hc.1, hc.2⟩
  · intro hs
    simp [SoundTransformer.smoothen, hs]
  · intro hs old2
    simp [SoundTransformer.smoothen, hs]

/-- Witness for `smoothen_cases`, exercising the flash-flood pass-through, the
moving-average branch, and the smooth-disabled identity at concrete inputs. -/
theorem smoothen_cases_witness :
    (SoundTransformer.default.smoothen 1 5 = 5)
    ∧ (SoundTransformer.default.smoothen 5 1
        = 1 * SoundTransformer.default.moving_avg_k
          + 5 * (1 - SoundTransformer.default.moving_avg_k))
    ∧ ({ SoundTransformer.default with smooth := false }.smoothen 7 2 = 2)
    ∧ ({ SoundTransformer.default with smooth := false }.smoothen 7 2
        = { SoundTransformer.default with smooth := false }.smoothen 100 2) := by
  refine ⟨?_, ?_, ?_, ?_⟩
  · exact (smoothen_cases SoundTransformer.default 1 5).1 rfl rfl (by norm_num)
  · exact (smoothen_cases SoundTransformer.default 5 1).2.1 rfl
      (by intro hc; exact absurd hc.2 (by norm_num))
  · exact (smoothen_cases { SoundTransformer.default with smooth := false } 7 2).2.2.1 rfl
  · exact (smoothen_cases { SoundTransformer.default with smooth := false } 7 2).2.2.2
      rfl 100

/-- The transformer configuration of the end-to-end smoothing scenario:
normalization off, smoothing on, flash-flood off, moving_avg_range = 10 with
its derived coefficient. -/
def emaOnlyTransformer : SoundTransformer :=
  { norm := false
    full_norm := false
    norm_scale := 1
    smooth := true
    flash_flood := false
    moving_avg_range := 10
    moving_avg_k := get_moving_avg_coefficient 10 }

/-- A concrete stand-in for the platform power function that agrees with the
exact real power x ^ y at the arguments the scenarios exercise:
0.25 ^ 1.5 = 0.125 (exact, also in f32). -/
def powf_eg : ℚ → ℚ → ℚ :=
  fun x y => if x = 0.25 ∧ y = 1.5 then 0.125 else 0

/-- C3 counterexample: with moving_avg_range = 10 (k = 2/11 ≈ 0.1818) and
flash_flood = false, norm = false, smooth = true, `apply(0, 1, 0)` evaluates
to 1/44 ≈ 0.0227, not approximately 0.1818: the base-scale stage first maps
the magnitude 1 to (0.25 * 1).abs() ^ 1.5 = 0.125 before the moving average
is taken, which the claimed value 1 * 0.1818 + 0 * 0.8182 ignores. -/
theorem apply_scenario_counterexample :
    SoundTransformer.apply powf_eg emaOnlyTransformer 0 1 0 = 1 / 44
    ∧ ¬ |(1 / 44 : ℚ) - 0.1818| < 1 / 20 := by
  constructor
  · simp only [SoundTransformer.apply, SoundTransformer.normalize,
      SoundTransformer.smoothen, emaOnlyTransformer, powf_eg,
      get_moving_avg_coefficient]
    norm_num
  · rw [abs_of_nonpos (by norm_num)]
    norm_num

/-- C3 amended: with moving_avg_range = 10 the derived coefficient is
k = 2/11 ≈ 0.1818, and apply(old = 0, new = 1, any bin frequency) with
flash_flood = false, norm = false, smooth = true equals
(0.25 * 1).abs() ^ 1.5 * k + 0 * (1 - k) = 0.125 * 2/11 = 1/44 ≈ 0.0227:
the base-scale stage applies before the moving average. -/
theorem apply_scenario_amended (powf : ℚ → ℚ → ℚ) (f : ℚ)
    (hp : powf 0.25 1.5 = 0.125) :
    get_moving_avg_coefficient 10 = 2 / 11
    ∧ |get_moving_avg_coefficient 10 - 0.1818| < 1 / 10 ^ 4
    ∧ SoundTransformer.apply powf emaOnlyTransformer 0 1 f = 0.125 * (2 / 11) := by
  refine ⟨?_, ?_, ?_⟩
  · norm_num [get_moving_avg_coefficient]
  · rw [get_moving_avg_coefficient]
    rw [abs_of_nonneg (by norm_num)]
    norm_num
  · have h1 : |(0.25 : ℚ) * 1| = (0.25 : ℚ) := by norm_num
    simp only [SoundTransformer.apply, SoundTransformer.normalize,
      SoundTransformer.smoothen, emaOnlyTransformer, get_moving_avg_coefficient,
      h1, hp]
    norm_num

/-- Witness for `apply_scenario_amended` at the concrete power function
`powf_eg` and bin frequency 0. -/
theorem apply_scenario_amended_witness :
    get_moving_avg_coefficient 10 = 2 / 11
    ∧ |get_moving_avg_coefficient 10 - 0.1818| < 1 / 10 ^ 4
    ∧ SoundTransformer.apply powf_eg emaOnlyTransformer 0 1 0 = 0.125 * (2 / 11) :=
  apply_scenario_amended powf_eg 0 (by norm_num [powf_eg])

/-- C5 invariant: the smoothing coefficient is exactly the one derived from the
current range. -/
def MovingAvgInvariant (st : SoundTransformer) : Prop :=
  st.moving_avg_k = 2 / (1 + (st.moving_avg_range : ℚ))

/-- C5: moving_avg_k = 2 / (1 + moving_avg_range) holds for the
default-constructed SoundTransformer and is preserved by every mutator
(toggle_norm, toggle_smooth, toggle_flash_flood, shift_norm_scale,
shift_moving_avg_range); moving_avg_k is only ever written together with
moving_avg_range, via get_moving_avg_coefficient. -/
theorem moving_avg_invariant_preserved (st : SoundTransformer)
    (h : MovingAvgInvariant st) (factor : ℚ) (d : ℤ) :
    MovingAvgInvariant SoundTransformer.default
    ∧ MovingAvgInvariant st.toggle_norm
    ∧ MovingAvgInvariant st.toggle_smooth
    ∧ MovingAvgInvariant st.toggle_flash_flood
    ∧ MovingAvgInvariant (st.shift_norm_scale factor)
    ∧ MovingAvgInvariant (st.shift_moving_avg_range d) := by
  refine ⟨?_, ?_, ?_, ?_, ?_, ?_⟩
  · norm_num [MovingAvgInvariant, SoundTransformer.default, get_moving_avg_coefficient]
  · exact h
  · exact h
  · exact h
  · exact h
  · simp [MovingAvgInvariant, SoundTransformer.shift_moving_avg_range,
      SoundTransformer.set_moving_avg_range, get_moving_avg_coefficient]

/-- Witness for `moving_avg_invariant_preserved`: the invariant holds after
shifting the default transformer's range by one. -/
theorem moving_avg_invariant_witness :
    MovingAvgInvariant (SoundTransformer.default.shift_moving_avg_range 1) :=
  (moving_avg_invariant_preserved SoundTransformer.default
    (by norm_num [MovingAvgInvariant, SoundTransformer.default,
      get_moving_avg_coefficient]) 2 1).2.2.2.2.2

/-- C6: for every in-range u32 current range r and i32 delta d,
shift_moving_avg_range sets the range to max(0, r + d), clamped at zero and
never negative, with the mixed signed/unsigned arithmetic taken modulo 2^32. -/
theorem shift_moving_avg_range_clamp (st : SoundTransformer) (d : ℤ)
    (hr : st.moving_avg_range < 2 ^ 32) (hd1 : -(2 ^ 31) ≤ d) (hd2 : d < 2 ^ 31) :
    (st.shift_moving_avg_range d).moving_avg_range
      = (max 0 ((st.moving_avg_range : ℤ) + d)).toNat % 2 ^ 32 := by
  simp only [SoundTransformer.shift_moving_avg_range,
    SoundTransformer.set_moving_avg_range, u32_of_i32]
  split
  · omega
  · omega

/-- Witness for `shift_moving_avg_range_clamp`: shifting the default range 10
by -3 lands on max(0, 10 - 3) = 7. -/
theorem shift_moving_avg_range_clamp_witness :
    (SoundTransformer.default.shift_moving_avg_range (-3)).moving_avg_range
      = (max 0 ((SoundTransformer.default.moving_avg_range : ℤ) + -3)).toNat % 2 ^ 32 :=
  shift_moving_avg_range_clamp SoundTransformer.default (-3)
    (by norm_num [SoundTransformer.default]) (by norm_num) (by norm_num)

/-- Embeds the `RawSoundData` de-interleaving iterator from src/sound_proxy.rs:
starting at `pos`, yield `data[pos]` and advance by `num_channels` while
`pos < data.len()`. The extra fuel argument only bounds the number of steps;
`data.length` steps always suffice for any positive `num_channels` (`on_data`
always passes 2), so the fuel never cuts the iteration short. -/
def rawSoundDataAux (data : List ℚ) (num_channels : ℕ) : ℕ → ℕ → List ℚ
  | _, 0 => []
  | pos, fuel + 1 =>
    if h : pos < data.length then
      data.get ⟨pos, h⟩ :: rawSoundDataAux data num_channels (pos + num_channels) fuel
    else
      []

/-- The de-interleaving iterator collected into a list: every
`num_channels`-th sample of `data` starting at offset `pos`. -/
def rawSoundData (data : List ℚ) (num_channels pos : ℕ) : List ℚ :=
  rawSoundDataAux data num_channels pos data.length

/-- An interleaved 2-channel stream [l0, r0, l1, r1, ...] built from its list
of (left, right) frames. -/
def interleave2 : List (ℚ × ℚ) → List ℚ
  | [] => []
  | p :: ps => p.1 :: p.2 :: interleave2 ps

theorem interleave2_length (ps : List (ℚ × ℚ)) :
    (interleave2 ps).length = 2 * ps.length := by
  induction ps with
  | nil => rfl
  | cons p ps ih => simp [interleave2, ih]; omega

theorem rawSoundDataAux_shift (a : ℚ) (rest : List ℚ) (nc : ℕ) :
    ∀ (fuel pos : ℕ),
      rawSoundDataAux (a :: rest) nc (pos + 1) fuel = rawSoundDataAux rest nc pos fuel := by
  intro fuel
  induction fuel with
  | zero => intro pos; rfl
  | succ fuel ih =>
    intro pos
    by_cases h : pos < rest.length
    · have h2 : pos + 1 < (a :: rest).length := by simpa using Nat.succ_lt_succ h
      simp only [rawSoundDataAux, dif_pos h, dif_pos h2]
      have harith : pos + 1 + nc = pos + nc + 1 := by omega
      rw [List.get_cons_succ, harith, ih (pos + nc)]
    · have h2 : ¬ pos + 1 < (a :: rest).length := by
        simp only [List.length_cons]
        omega
      simp only [rawSoundDataAux, dif_neg h, dif_neg h2]

theorem rawSoundDataAux_fuel (data : List ℚ) (nc : ℕ) :
    ∀ (fuel1 fuel2 pos : ℕ), 0 < nc →
      data.length - pos ≤ fuel1 → data.length - pos ≤ fuel2 →
      rawSoundDataAux data nc pos fuel1 = rawSoundDataAux data nc pos fuel2 := by
  intro fuel1
  induction fuel1 with
  | zero =>
    intro fuel2 pos hnc h1 h2
    have hp : ¬ pos < data.length := by omega
    cases fuel2 with
    | zero => rfl
    | succ f => simp only [rawSoundDataAux, dif_neg hp]
  | succ f1 ih =>
    intro fuel2 pos hnc h1 h2
    cases fuel2 with
    | zero =>
      have hp : ¬ pos < data.length := by omega
      simp only [rawSoundDataAux, dif_neg hp]
    | succ f2 =>
      by_cases hp : pos < data.length
      · simp only [rawSoundDataAux, dif_pos hp]
        rw [ih f2 (pos + nc) hnc (by omega) (by omega)]
      · simp only [rawSoundDataAux, dif_neg hp]

theorem rawSoundDataAux_succ (data : List ℚ) (nc pos fuel : ℕ) :
    rawSoundDataAux data nc pos (fuel + 1)
      = if h : pos < data.length then
          data.get ⟨pos, h⟩ :: rawSoundDataAux data nc (pos + nc) fuel
        else
          [] :=
  rfl

theorem rawSoundData_interleave_left (ps : List (ℚ × ℚ)) :
    rawSoundData (interleave2 ps) 2 0 = ps.map Prod.fst := by
  induction ps with
  | nil => rfl
  | cons p ps ih =>
    simp only [interleave2, rawSoundData, List.length_cons, List.map_cons]
    rw [rawSoundDataAux_succ, dif_pos (by simp)]
    have hget : ∀ h, (p.1 :: p.2 :: interleave2 ps).get ⟨0, h⟩ = p.1 := fun h => rfl
    rw [hget]
    have h1 := rawSoundDataAux_shift p.1 (p.2 :: interleave2 ps) 2
      ((interleave2 ps).length + 1) 1
    have h2 := rawSoundDataAux_shift p.2 (interleave2 ps) 2
      ((interleave2 ps).length + 1) 0
    norm_num at h1 h2 ⊢
    rw [h1, h2]
    rw [rawSoundDataAux_fuel (interleave2 ps) 2 ((interleave2 ps).length + 1)
      (interleave2 ps).length 0 (by omega) (by omega) (by omega)]
    exact ih

theorem rawSoundData_interleave_right (ps : List (ℚ × ℚ)) :
    rawSoundData (interleave2 ps) 2 1 = ps.map Prod.snd := by
  induction ps with
  | nil => rfl
  | cons p ps ih =>
    simp only [interleave2, rawSoundData, List.length_cons, List.map_cons]
    rw [rawSoundDataAux_succ, dif_pos (by simp)]
    have hget : ∀ h, (p.1 :: p.2 :: interleave2 ps).get ⟨1, h⟩ = p.2 := fun h => rfl
    rw [hget]
    have h1 := rawSoundDataAux_shift p.1 (p.2 :: interleave2 ps) 2
      ((interleave2 ps).length + 1) 2
    have h2 := rawSoundDataAux_shift p.2 (interleave2 ps) 2
      ((interleave2 ps).length + 1) 1
    norm_num at h1 h2 ⊢
    rw [h1, h2]
    rw [rawSoundDataAux_fuel (interleave2 ps) 2 ((interleave2 ps).length + 1)
      (interleave2 ps).length 1 (by omega) (by omega) (by omega)]
    exact ih

theorem rawSoundData_cons2_left (a b : ℚ) (rest : List ℚ) :
    rawSoundData (a :: b :: rest) 2 0 = a :: rawSoundData rest 2 0 := by
  simp only [rawSoundData, List.length_cons]
  rw [rawSoundDataAux_succ, dif_pos (by simp)]
  have hget : ∀ h, (a :: b :: rest).get ⟨0, h⟩ = a := fun h => rfl
  rw [hget]
  have h1 := rawSoundDataAux_shift a (b :: rest) 2 (rest.length + 1) 1
  have h2 := rawSoundDataAux_shift b rest 2 (rest.length + 1) 0
  norm_num at h1 h2 ⊢
  rw [h1, h2]
  rw [rawSoundDataAux_fuel rest 2 (rest.length + 1) rest.length 0
    (by omega) (by omega) (by omega)]

theorem rawSoundData_cons2_right (a b : ℚ) (rest : List ℚ) :
    rawSoundData (a :: b :: rest) 2 1 = b :: rawSoundData rest 2 1 := by
  simp only [rawSoundData, List.length_cons]
  rw [rawSoundDataAux_succ, dif_pos (by simp)]
  have hget : ∀ h, (a :: b :: rest).get ⟨1, h⟩ = b := fun h => rfl
  rw [hget]
  have h1 := rawSoundDataAux_shift a (b :: rest) 2 (rest.length + 1) 2
  have h2 := rawSoundDataAux_shift b rest 2 (rest.length + 1) 1
  norm_num at h1 h2 ⊢
  rw [h1, h2]
  rw [rawSoundDataAux_fuel rest 2 (rest.length + 1) rest.length 1
    (by omega) (by omega) (by omega)]

theorem rawSoundData_interleave_odd_left (ps : List (ℚ × ℚ)) (t : ℚ) :
    rawSoundData (interleave2 ps ++ [t]) 2 0 = ps.map Prod.fst ++ [t] := by
  induction ps with
  | nil => rfl
  | cons p ps ih =>
    simp only [interleave2, List.cons_append, List.map_cons]
    rw [rawSoundData_cons2_left, ih]

theorem rawSoundData_interleave_odd_right (ps : List (ℚ × ℚ)) (t : ℚ) :
    rawSoundData (interleave2 ps ++ [t]) 2 1 = ps.map Prod.snd := by
  induction ps with
  | nil => rfl
  | cons p ps ih =>
    simp only [interleave2, List.cons_append, List.map_cons]
    rw [rawSoundData_cons2_right, ih]

/-- C4 counterexample: on the odd-length interleaved input [1, 2, 3] the
trailing sample 3 is not dropped: the left extraction (offset 0, stride 2)
yields [1, 3], not [1] as it would if the trailing sample were discarded. -/
theorem deinterleave_odd_counterexample :
    rawSoundData [1, 2, 3] 2 0 = [1, 3]
    ∧ rawSoundData [1, 2, 3] 2 0 ≠ [1] := by
  exact ⟨by decide, by decide⟩

/-- C4 amended: for every interleaved 2-channel input [l0, r0, l1, r1, ...]
the deinterleaving step yields left = [l0, l1, ...] (every 2nd sample from
offset 0) and right = [r0, r1, ...] (every 2nd sample from offset 1) when the
input length is even; when the input length is odd, the trailing sample is
appended to the left channel (it is picked up by the offset-0 extraction),
while the right channel receives only the complete pairs. -/
theorem deinterleave_amended (ps : List (ℚ × ℚ)) (t : ℚ) :
    rawSoundData (interleave2 ps) 2 0 = ps.map Prod.fst
    ∧ rawSoundData (interleave2 ps) 2 1 = ps.map Prod.snd
    ∧ rawSoundData (interleave2 ps ++ [t]) 2 0 = ps.map Prod.fst ++ [t]
    ∧ rawSoundData (interleave2 ps ++ [t]) 2 1 = ps.map Prod.snd :=
  ⟨rawSoundData_interleave_left ps, rawSoundData_interleave_right ps,
    rawSoundData_interleave_odd_left ps t, rawSoundData_interleave_odd_right ps t⟩

/-- Embeds `const CLIP_CAP: usize = 4096` from src/sound_proxy.rs. -/
def CLIP_CAP : ℕ := 4096

/-- Embeds `ConstGenericRingBuffer::push` semantics (overwrite the oldest
element when full); the buffer is listed oldest first. -/
def rbPush (cap : ℕ) (buf : List ℚ) (x : ℚ) : List ℚ :=
  if buf.length < cap then buf ++ [x] else buf.tail ++ [x]

/-- Embeds `RingBuffer::extend`: push each incoming sample in order. -/
def rbExtend (cap : ℕ) (buf : List ℚ) (xs : List ℚ) : List ℚ :=
  xs.foldl (rbPush cap) buf

/-- Embeds `struct Clip` (sample_rate plus the two per-channel ring buffers,
each of capacity CLIP_CAP). -/
structure Clip where
  sample_rate : ℕ
  left : List ℚ
  right : List ℚ

/-- Embeds `impl Default for Clip`: sample_rate 0 and both buffers
zero-filled to capacity by `fill_default`. -/
def Clip.default : Clip :=
  { sample_rate := 0
    left := List.replicate CLIP_CAP 0
    right := List.replicate CLIP_CAP 0 }

/-- Embeds `fn on_data(clip: &mut Clip, data: &[f32])`: extend each channel
buffer with the de-interleaved samples (num_channels = 2, offsets 0 and 1). -/
def onData (clip : Clip) (data : List ℚ) : Clip :=
  { clip with
    left := rbExtend CLIP_CAP clip.left (rawSoundData data 2 0)
    right := rbExtend CLIP_CAP clip.right (rawSoundData data 2 1) }

theorem rbExtend_full (cap : ℕ) (hcap : 0 < cap) :
    ∀ (xs buf : List ℚ), buf.length = cap →
      rbExtend cap buf xs = (buf ++ xs).drop xs.length := by
  intro xs
  induction xs with
  | nil =>
    intro buf hb
    simp [rbExtend]
  | cons x xs ih =>
    intro buf hb
    obtain ⟨b, bt, rfl⟩ : ∃ b bt, buf = b :: bt := by
      cases buf with
      | nil => simp at hb; omega
      | cons b bt => exact ⟨b, bt, rfl⟩
    have hpush : rbPush cap (b :: bt) x = bt ++ [x] := by
      simp [rbPush, hb]
    show List.foldl (rbPush cap) (rbPush cap (b :: bt) x) xs = _
    rw [hpush]
    have hlen : (bt ++ [x]).length = cap := by
      simp only [List.length_cons] at hb
      simp only [List.length_append, List.length_singleton]
      omega
    rw [show List.foldl (rbPush cap) (bt ++ [x]) xs = rbExtend cap (bt ++ [x]) xs from rfl,
      ih (bt ++ [x]) hlen]
    simp [List.append_assoc]

/-- C7: the per-channel ring buffers of a Clip have fixed capacity
CLIP_CAP = 4096 and are zero-filled at construction; starting from the
zero-filled full buffer, after any sequence of appends the buffer holds
exactly cap elements, namely the last cap elements of (initial zeros ++
appended samples) in original order; once at least cap samples have been
appended, the contents are exactly the cap most recently appended samples. -/
theorem ring_buffer_fifo (cap : ℕ) (xs : List ℚ) (hcap : 0 < cap) :
    CLIP_CAP = 4096
    ∧ Clip.default.left = List.replicate CLIP_CAP 0
    ∧ Clip.default.right = List.replicate CLIP_CAP 0
    ∧ (rbExtend cap (List.replicate cap 0) xs).length = cap
    ∧ rbExtend cap (List.replicate cap 0) xs
        = (List.replicate cap 0 ++ xs).drop xs.length
    ∧ (cap ≤ xs.length →
        rbExtend cap (List.replicate cap 0) xs = xs.drop (xs.length - cap)) := by
  have hmain := rbExtend_full cap hcap xs (List.replicate cap 0) (by simp)
  refine ⟨rfl, rfl, rfl, ?_, hmain, ?_⟩
  · rw [hmain]
    simp
  · intro hle
    rw [hmain, List.drop_append_eq_append_drop]
    rw [List.drop_eq_nil_of_le (by simpa using hle)]
    simp

/-- Witness for `ring_buffer_fifo`: with capacity 8, appending 1..10 one at a
time onto the zero-filled buffer yields exactly [3, 4, 5, 6, 7, 8, 9, 10]. -/
theorem ring_buffer_fifo_witness :
    rbExtend 8 (List.replicate 8 0) [1, 2, 3, 4, 5, 6, 7, 8, 9, 10]
      = [3, 4, 5, 6, 7, 8, 9, 10] := by
  have h := (ring_buffer_fifo 8 [1, 2, 3, 4, 5, 6, 7, 8, 9, 10]
    (by norm_num)).2.2.2.2.2 (by decide)
  exact h.trans (by decide)

/-- Embeds `enum AppState` from src/main.rs. -/
inductive AppState where
  | SelectingSource
  | Displaying
deriving DecidableEq, Repr

/-- Embeds `struct Sides<T>` from src/main.rs. -/
structure Sides (α : Type) where
  left : α
  right : α
deriving DecidableEq, Repr

/-- Embeds `struct SoundData` from src/main.rs. -/
structure SoundData where
  raw : Sides (List ℚ)
  freqs : Sides (List ℚ)
deriving DecidableEq, Repr

/-- Embeds the claim-relevant variants of `enum Message` from src/main.rs. -/
inductive Message where
  | SelectDevice (index : ℕ)
  | UnselectDevice
  | ToggleNormalize
  | ToggleSmooth
  | ToggleFlashFlood
  | ShiftMovingAvgRange (val : ℤ)
  | Tick
deriving DecidableEq, Repr

/-- Embeds the claim-relevant fields of `struct App` from src/main.rs. -/
structure App where
  state : AppState
  sound_transformer : SoundTransformer
  sound_data : Option SoundData
deriving DecidableEq, Repr

/-- The per-tick data produced by the external collaborators: the clip
snapshot (raw) and the FFT of that snapshot as (frequency, magnitude) bins,
as consumed by the `process` closure. -/
structure TickInput where
  raw : Sides (List ℚ)
  spectrum : Sides (List (ℚ × ℚ))
deriving Repr

/-- Embeds the `process` closure of `App::update` (Message::Tick): zip the
spectrum bins with the previous tick's output (zip truncates to the shorter
of the two) and apply the transformer per bin as
`apply(*old, new.val(), freq.val())`. -/
def process (powf : ℚ → ℚ → ℚ) (tr : SoundTransformer)
    (spectrum : List (ℚ × ℚ)) (old_freqs : List ℚ) : List ℚ :=
  (spectrum.zip old_freqs).map fun fo => tr.apply powf fo.2 fo.1.2 fo.1.1

/-- Embeds `App::update` from src/main.rs for the claim-relevant messages.
`SelectDevice` flips the state to Displaying (the proxy side effect is
external); `UnselectDevice` flips the state back and drops the stream; note
that it leaves `sound_data` untouched.  On Tick in Displaying, if
`sound_data` is `Some`, both channels are processed against the stored
previous freqs; otherwise zero vectors are published without running the
transformer (the source uses `raw.left.len()` for both channels here). -/
def App.update (powf : ℚ → ℚ → ℚ) (input : TickInput) (app : App) :
    Message → App
  | .SelectDevice _ => { app with state := .Displaying }
  | .UnselectDevice => { app with state := .SelectingSource }
  | .ToggleNormalize =>
    { app with sound_transformer := app.sound_transformer.toggle_norm }
  | .ToggleSmooth =>
    { app with sound_transformer := app.sound_transformer.toggle_smooth }
  | .ToggleFlashFlood =>
    { app with sound_transformer := app.sound_transformer.toggle_flash_flood }
  | .ShiftMovingAvgRange val =>
    { app with sound_transformer := app.sound_transformer.shift_moving_avg_range val }
  | .Tick =>
    match app.state with
    | .SelectingSource => app
    | .Displaying =>
      let raw := input.raw
      let freqs : Sides (List ℚ) :=
        match app.sound_data with
        | some sd =>
          { left := process powf app.sound_transformer input.spectrum.left sd.freqs.left
            right := process powf app.sound_transformer input.spectrum.right sd.freqs.right }
        | none =>
          { left := List.replicate raw.left.length 0
            right := List.replicate raw.left.length 0 }
      { app with sound_data := some { raw := raw, freqs := freqs } }

/-- A Displaying app holding one previous-tick bin of value 11 per channel. -/
def exSoundData : SoundData :=
  { raw := { left := [0], right := [0] }
    freqs := { left := [11], right := [11] } }

def exApp : App :=
  { state := AppState.Displaying
    sound_transformer := emaOnlyTransformer
    sound_data := some exSoundData }

/-- A tick delivering one spectrum bin (frequency 0, magnitude 1). -/
def exInput : TickInput :=
  { raw := { left := [0], right := [0] }
    spectrum := { left := [(0, 1)], right := [(0, 1)] } }

/-- C8 counterexample: UnselectDevice leaves `sound_data` (the accumulated
shaper state) in place, and on the first tick after an
UnselectDevice/SelectDevice cycle the transformer runs against the retained
previous output [11], yielding [397/44], not the [1/44] it would produce
against all-zero history. -/
theorem unselect_keeps_state_counterexample :
    (App.update powf_eg exInput exApp Message.UnselectDevice).sound_data
      = some exSoundData
    ∧ ((App.update powf_eg exInput
          (App.update powf_eg exInput
            (App.update powf_eg exInput exApp Message.UnselectDevice)
            (Message.SelectDevice 0))
          Message.Tick).sound_data).map SoundData.freqs
        = some { left := [397 / 44], right := [397 / 44] }
    ∧ process powf_eg emaOnlyTransformer [(0, 1)] [0] = [1 / 44]
    ∧ ((397 : ℚ) / 44) ≠ 1 / 44 := by
  have h1 : |(0.25 : ℚ) * 1| = (0.25 : ℚ) := by norm_num
  have h2 : powf_eg 0.25 1.5 = 0.125 := by norm_num [powf_eg]
  have happly : ∀ old : ℚ,
      SoundTransformer.apply powf_eg emaOnlyTransformer old 1 0
        = 0.125 * (2 / 11) + old * (1 - 2 / 11) := by
    intro old
    simp only [SoundTransformer.apply, SoundTransformer.normalize,
      SoundTransformer.smoothen, emaOnlyTransformer, get_moving_avg_coefficient,
      h1, h2]
    norm_num
  have hproc11 : process powf_eg emaOnlyTransformer [(0, 1)] [11] = [397 / 44] := by
    show [SoundTransformer.apply powf_eg emaOnlyTransformer 11 1 0] = [397 / 44]
    rw [happly 11]
    norm_num
  have hproc0 : process powf_eg emaOnlyTransformer [(0, 1)] [0] = [1 / 44] := by
    show [SoundTransformer.apply powf_eg emaOnlyTransformer 0 1 0] = [1 / 44]
    rw [happly 0]
    norm_num
  refine ⟨rfl, ?_, hproc0, by norm_num⟩
  have hstep : (App.update powf_eg exInput
      (App.update powf_eg exInput
        (App.update powf_eg exInput exApp Message.UnselectDevice)
        (Message.SelectDevice 0))
      Message.Tick).sound_data
      = some { raw := exInput.raw
               freqs := { left := process powf_eg emaOnlyTransformer [(0, 1)] [11]
                          right := process powf_eg emaOnlyTransformer [(0, 1)] [11] } } := rfl
  rw [hstep]
  simp [hproc11, exInput]

/-- C8 amended: UnselectDevice returns to SelectingSource but retains the
accumulated shaper state (`sound_data` is unchanged); a tick in Displaying
uses all-zero output (without running the shaper) only when no tick has ever
completed (`sound_data = none`), and after an UnselectDevice/SelectDevice
cycle the first tick runs the SignalShaper against the previous session's
last output rather than all-zero history. -/
theorem unselect_retains_shaper_state (powf : ℚ → ℚ → ℚ) (input : TickInput)
    (app : App) :
    (App.update powf input app Message.UnselectDevice).state
      = AppState.SelectingSource
    ∧ (App.update powf input app Message.UnselectDevice).sound_data
      = app.sound_data
    ∧ (app.state = AppState.Displaying → app.sound_data = none →
        (App.update powf input app Message.Tick).sound_data
          = some { raw := input.raw
                   freqs := { left := List.replicate input.raw.left.length 0
                              right := List.replicate input.raw.left.length 0 } })
    ∧ (∀ sd : SoundData, app.state = AppState.Displaying →
        app.sound_data = some sd →
        (App.update powf input app Message.Tick).sound_data
          = some { raw := input.raw
                   freqs :=
                    { left := process powf app.sound_transformer
                        input.spectrum.left sd.freqs.left
                      right := process powf app.sound_transformer
                        input.spectrum.right sd.freqs.right } }) := by
  refine ⟨rfl, rfl, ?_, ?_⟩
  · intro h1 h2
    simp [App.update, h1, h2]
  · intro sd h1 h2
    simp [App.update, h1, h2]

/-- A Displaying app that has never completed a tick. -/
def exAppFresh : App :=
  { state := AppState.Displaying
    sound_transformer := emaOnlyTransformer
    sound_data := none }

/-- Witness for `unselect_retains_shaper_state`: the first-ever tick
publishes zero vectors, and a tick with stored state processes against it. -/
theorem unselect_retains_shaper_state_witness :
    (App.update powf_eg exInput exAppFresh Message.Tick).sound_data
      = some { raw := exInput.raw
               freqs := { left := List.replicate exInput.raw.left.length 0
                          right := List.replicate exInput.raw.left.length 0 } }
    ∧ (App.update powf_eg exInput exApp Message.Tick).sound_data
      = some { raw := exInput.raw
               freqs :=
                { left := process powf_eg emaOnlyTransformer
                    exInput.spectrum.left exSoundData.freqs.left
                  right := process powf_eg emaOnlyTransformer
                    exInput.spectrum.right exSoundData.freqs.right } } :=
  ⟨(unselect_retains_shaper_state powf_eg exInput exAppFresh).2.2.1 rfl rfl,
    (unselect_retains_shaper_state powf_eg exInput exApp).2.2.2 exSoundData rfl rfl⟩

/-- Models `.expect("frequency spectrum conversion")` applied to the result
of the external `samples_fft_to_spectrum` call: on `Ok` the spectrum is
returned, on `Err` the call panics and aborts the whole process; the panic
is modelled as `none`. -/
def tickSpectrum (res : Except String (List (ℚ × ℚ))) :
    Option (List (ℚ × ℚ)) :=
  match res with
  | .ok s => some s
  | .error _ => none

/-- The per-channel tick computation of `App::update` (Message::Tick) with
the fallibility of the spectral transform made explicit: `none` is the
process-aborting panic raised by `.expect` inside the `to_freqs` closure. -/
def tickFreqsChecked (powf : ℚ → ℚ → ℚ) (tr : SoundTransformer)
    (raw : List ℚ) (fftResult : Except String (List (ℚ × ℚ)))
    (old : Option (List ℚ)) : Option (List ℚ) :=
  match tickSpectrum fftResult with
  | none => none
  | some spectrum =>
    some
      (match old with
      | some o => process powf tr spectrum o
      | none => List.replicate raw.length 0)

/-- C9: when the spectral transform fails to produce spectrum data on a tick
(e.g. empty input), the `.expect` in the tick's `to_freqs` closure panics and
aborts the whole process (result `none`) — the code does not skip the tick
and continue as the claim requires; a successful transform never panics. -/
theorem tick_transform_error_panics (powf : ℚ → ℚ → ℚ)
    (tr : SoundTransformer) (raw : List ℚ) (e : String)
    (s : List (ℚ × ℚ)) (old : Option (List ℚ)) :
    tickFreqsChecked powf tr raw (Except.error e) old = none
    ∧ tickFreqsChecked powf tr raw (Except.ok s) old ≠ none := by
  constructor
  · rfl
  · cases old <;> simp [tickFreqsChecked, tickSpectrum]

/-- Embeds `SoundProxy::select_device`s device lookup `&self.devices[index]`
(devices are identified by name here): `none` models the index-out-of-bounds
panic of the unchecked indexing. -/
def select_device (devices : List String) (index : ℕ) : Option String :=
  devices.get? index

/-- Embeds the SelectingSource arm of `App::view`: one
`Message::SelectDevice(i)` button per enumerated device. -/
def view_select_buttons (devices : List String) : List Message :=
  (List.range devices.length).map Message.SelectDevice

/-- C10: the device lookup of select_device has no bounds check: it succeeds
exactly for indices below the number of scanned devices and panics (none)
for every index at or past the end; the SelectingSource view only ever
generates SelectDevice messages with in-range indices. -/
theorem select_device_bounds (devices : List String) (i : ℕ) :
    (i < devices.length → ∃ d, select_device devices i = some d)
    ∧ (devices.length ≤ i → select_device devices i = none)
    ∧ (∀ msg ∈ view_select_buttons devices,
        ∃ j, msg = Message.SelectDevice j ∧ j < devices.length) := by
  refine ⟨?_, ?_, ?_⟩
  · intro h
    exact ⟨devices.get ⟨i, h⟩, List.get?_eq_get h⟩
  · intro h
    exact List.get?_eq_none.mpr h
  · intro msg hmsg
    simp only [view_select_buttons, List.mem_map, List.mem_range] at hmsg
    obtain ⟨j, hj, rfl⟩ := hmsg
    exact ⟨j, rfl, hj⟩

/-- Witness for `select_device_bounds` on concrete device lists. -/
theorem select_device_bounds_witness :
    (∃ d, select_device ["alsa", "pulse"] 1 = some d)
    ∧ select_device ["alsa"] 5 = none
    ∧ (∀ msg ∈ view_select_buttons ["alsa"],
        ∃ j, msg = Message.SelectDevice j ∧ j < 1) :=
  ⟨(select_device_bounds ["alsa", "pulse"] 1).1 (by decide),
    (select_device_bounds ["alsa"] 5).2.1 (by decide),
    (select_device_bounds ["alsa"] 0).2.2⟩
